import Mathlib

/-!
Shallow embedding of the SKALE transactions-manager service
(src/server.py, src/transaction_manager/eth.py) together with proofs of
the frozen behavioural claims about it.

Modelling conventions:
* Python ints are modelled as integers (`ℤ`), or `ℕ` where the source
  value is a count that is non-negative by construction.
* The Python float gas multiplier is modelled as `ℚ`; Python `int(x)`
  is truncation toward zero (`pyInt`).
* A Python dict with a fixed key set is modelled as a structure whose
  fields have type `Option (Option ℤ)`: the outer `Option` is key
  presence (`none` means the key is absent), the inner one is the
  Python value (`none` means Python `None`).
* Code that can raise is modelled with `Except`; the relevant Python
  runtime errors are the constructors of `PyErr`.
* Wall-clock time in the two polling loops is discretised to whole
  seconds: `time.sleep(1)` advances the clock by one, and the chain is
  observed through a function from poll instants to observed values.
-/

namespace TxManager

/-! ### Python values and exceptions

Used to model the provider-error classification helpers
`is_replacement_underpriced` and `is_nonce_too_low` of
transaction_manager/eth.py, which inspect `err.args[0]` of a raised
`ValueError`.
-/

/-- Python values that can appear in a provider error payload. -/
inductive PyVal where
  | pyNone : PyVal
  | int (n : ℤ) : PyVal
  | str (s : String) : PyVal
  | dict (entries : List (String × PyVal)) : PyVal

/-- Python runtime errors raised by the embedded code fragments. -/
inductive PyErr where
  | indexError : PyErr
  | keyError : PyErr
  | typeError : PyErr
  | estimationError : PyErr
  deriving DecidableEq

/-- Tests whether the first character list is an initial segment of the second. -/
def chStarts : List Char → List Char → Bool
  | [], _ => true
  | _ :: _, [] => false
  | a :: as, b :: bs => a == b && chStarts as bs

/-- Tests whether the first character list occurs contiguously inside the second. -/
def chHasSub (needle : List Char) : List Char → Bool
  | [] => needle.isEmpty
  | b :: bs => chStarts needle (b :: bs) || chHasSub needle bs

/-- Python substring containment for strings: `needle in hay`. -/
def strHasSub (needle hay : String) : Bool :=
  chHasSub needle.data hay.data

/-- Python membership `needle in container`: substring test on strings, key
membership on dicts, and a `TypeError` on values that do not support it. -/
def pyIn (needle container : PyVal) : Except PyErr Bool :=
  match container with
  | PyVal.str s =>
    match needle with
    | PyVal.str n => Except.ok (strHasSub n s)
    | _ => Except.error PyErr.typeError
  | PyVal.dict d =>
    match needle with
    | PyVal.str n => Except.ok (d.any (fun e => e.1 == n))
    | _ => Except.ok false
  | PyVal.int _ => Except.error PyErr.typeError
  | PyVal.pyNone => Except.error PyErr.typeError

/-- Python exceptions as seen by the classification helpers: a `ValueError`
carrying its argument tuple, or any other exception type. -/
inductive PyExc where
  | valueError (args : List PyVal) : PyExc
  | otherExc : PyExc

/-- Embedding of `is_replacement_underpriced` (eth.py lines 52-55):
`isinstance(err, ValueError) and isinstance(err.args[0], dict) and
err.args[0].get(message) == replacement transaction underpriced`.
Reading `err.args[0]` of an argument-less `ValueError` raises `IndexError`. -/
def is_replacement_underpriced : PyExc → Except PyErr Bool
  | PyExc.otherExc => Except.ok false
  | PyExc.valueError args =>
    match args.head? with
    | Option.none => Except.error PyErr.indexError
    | Option.some (PyVal.dict d) =>
      match List.lookup ("message") d with
      | Option.some (PyVal.str s) =>
        Except.ok (s == "replacement transaction underpriced")
      | _ => Except.ok false
    | Option.some _ => Except.ok false

/-- Embedding of `is_nonce_too_low` (eth.py lines 58-59):
`isinstance(err, ValueError) and (nonce in err.args[0][message])`.
Subscripting a non-dict first argument raises `TypeError`, a dict without
the message key raises `KeyError`, and an empty argument tuple raises
`IndexError`. -/
def is_nonce_too_low : PyExc → Except PyErr Bool
  | PyExc.otherExc => Except.ok false
  | PyExc.valueError args =>
    match args.head? with
    | Option.none => Except.error PyErr.indexError
    | Option.some (PyVal.dict d) =>
      match List.lookup ("message") d with
      | Option.none => Except.error PyErr.keyError
      | Option.some v => pyIn (PyVal.str ("nonce")) v
    | Option.some _ => Except.error PyErr.typeError

/-! ### Transactions and gas computation (transaction_manager/eth.py) -/

/-- The `raw_tx` dict of a `Tx`, holding every attribute of `Eth.TX_ATTRS`
as a key whose value may be Python `None`. Payload values (addresses, call
data) are modelled opaquely as integers, since only presence matters here.
The Python keys `from` and `to` are spelled `from_` and `to_`, both being
reserved words in Lean. -/
structure RawTx where
  from_ : Option ℤ
  to_ : Option ℤ
  value : Option ℤ
  nonce : Option ℤ
  chainId : Option ℤ
  gas : Option ℤ
  data : Option ℤ
  gasPrice : Option ℤ
  maxFeePerGas : Option ℤ
  maxPriorityFeePerGas : Option ℤ
  deriving DecidableEq

/-- A logical transaction as consumed by `Eth.calculate_gas`: its raw dict
plus a per-request multiplier override (a float or `None`). -/
structure Tx where
  raw_tx : RawTx
  multiplier : Option ℚ
  deriving DecidableEq

/-- The network transaction dict produced by `Eth.convert_tx`. Each field
has type `Option (Option ℤ)`: outer `none` means the key was removed by
`pop`, `some v` means the key is present with Python value `v`. -/
structure Etx where
  from_ : Option (Option ℤ)
  to_ : Option (Option ℤ)
  value : Option (Option ℤ)
  nonce : Option (Option ℤ)
  chainId : Option (Option ℤ)
  gas : Option (Option ℤ)
  data : Option (Option ℤ)
  gasPrice : Option (Option ℤ)
  maxFeePerGas : Option (Option ℤ)
  maxPriorityFeePerGas : Option (Option ℤ)
  type : Option ℤ
  deriving DecidableEq

/-- Embedding of `Eth.convert_tx` (eth.py lines 100-117): copy every
`TX_ATTRS` key from `raw_tx`; if `maxPriorityFeePerGas` or `maxFeePerGas`
is not `None` set `type` to 2 and pop `gasPrice`, otherwise set `type`
to 1 and pop both fee-market keys; finally pop `gas` and `data` when
their value is `None`. -/
def convert_tx (tx : Tx) : Etx :=
  let raw := tx.raw_tx
  if raw.maxPriorityFeePerGas.isSome || raw.maxFeePerGas.isSome then
    { from_ := Option.some raw.from_
      to_ := Option.some raw.to_
      value := Option.some raw.value
      nonce := Option.some raw.nonce
      chainId := Option.some raw.chainId
      gas := raw.gas.map Option.some
      data := raw.data.map Option.some
      gasPrice := Option.none
      maxFeePerGas := Option.some raw.maxFeePerGas
      maxPriorityFeePerGas := Option.some raw.maxPriorityFeePerGas
      type := Option.some 2 }
  else
    { from_ := Option.some raw.from_
      to_ := Option.some raw.to_
      value := Option.some raw.value
      nonce := Option.some raw.nonce
      chainId := Option.some raw.chainId
      gas := raw.gas.map Option.some
      data := raw.data.map Option.some
      gasPrice := Option.some raw.gasPrice
      maxFeePerGas := Option.none
      maxPriorityFeePerGas := Option.none
      type := Option.some 1 }

/-- Embedding of `Eth.avg_gas_price` (eth.py lines 119-121): the current
network gas price increased by the configured percentage, with Python
integer floor division; no floating point is involved. -/
def avg_gas_price (gas_price inc_percent : ℕ) : ℕ :=
  gas_price * (100 + inc_percent) / 100

/-- Python `int()` applied to a rational: truncation toward zero. -/
def pyInt (q : ℚ) : ℤ :=
  if 0 ≤ q then ⌊q⌋ else ⌈q⌉

/-- The effective multiplier of `Eth.calculate_gas` (eth.py lines 125-126):
`multiplier = tx.multiplier; multiplier = multiplier or GAS_MULTIPLIER`.
Python `or` replaces both `None` and `0.0` by the configured default. -/
def eff_multiplier (GAS_MULTIPLIER : ℚ) (m : Option ℚ) : ℚ :=
  match m with
  | Option.none => GAS_MULTIPLIER
  | Option.some x => if x = 0 then GAS_MULTIPLIER else x

/-- Configuration and chain observations used by `Eth.calculate_gas`:
the two config constants, the estimate the node returns for a given
converted transaction (or an estimation failure), and the gas limit of
the latest block. -/
structure GasEnv where
  DISABLE_GAS_ESTIMATION : Bool
  GAS_MULTIPLIER : ℚ
  estimate_gas : Etx → Except Unit ℕ
  block_gas_limit : ℕ

/-- Embedding of `Eth.calculate_gas` (eth.py lines 123-147). With
estimation disabled it returns `int(etx[gas] * multiplier)`, raising
`KeyError` when the `gas` key was popped by `convert_tx`; with estimation
enabled it multiplies the node estimate and clamps the result to the
latest block gas limit. -/
def calculate_gas (env : GasEnv) (tx : Tx) : Except PyErr ℤ :=
  let etx := convert_tx tx
  let multiplier := eff_multiplier env.GAS_MULTIPLIER tx.multiplier
  if env.DISABLE_GAS_ESTIMATION then
    match etx.gas with
    | Option.some (Option.some g) => Except.ok (pyInt ((g : ℚ) * multiplier))
    | Option.some Option.none => Except.error PyErr.typeError
    | Option.none => Except.error PyErr.keyError
  else
    match env.estimate_gas etx with
    | Except.error _ => Except.error PyErr.estimationError
    | Except.ok estimated =>
      let gas := pyInt ((estimated : ℚ) * multiplier)
      let gas_limit := env.block_gas_limit
      Except.ok (if gas > (gas_limit : ℤ) then (gas_limit : ℤ) else gas)

/-- Modelled from the spec: the Fee Estimator step that decides whether to
use the request's explicit gas limit is in the Transaction Executor
caller of `calculate_gas`, which is not under src/. Per spec section 4.2
step 2, the priced transaction uses the requested gas limit verbatim when
one is given, and falls back to `calculate_gas` otherwise. -/
def price_gas_limit (env : GasEnv) (tx : Tx) : Except PyErr ℤ :=
  match tx.raw_tx.gas with
  | Option.some g => Except.ok g
  | Option.none => calculate_gas env tx

/-! ### The sign-and-send handler (server.py) -/

/-- HTTP response envelope of the `/sign-and-send` handler:
`construct_ok_response` with the transaction hash, or
`construct_err_response` with status 400 and the raised error. -/
inductive SignResponse (E H : Type) where
  | okResp (transaction_hash : H) : SignResponse E H
  | errResp (status : ℕ) (err : E) : SignResponse E H

/-- Embedding of the body of `_sign_and_send` (server.py lines 56-65),
which runs under `threadLock`: read the nonce counter into the
transaction dict, attempt `wallet.sign_and_send`, return a 400 error
leaving the counter unchanged on any exception, otherwise increment the
counter (`nonce_manager.increment`, which per spec section 4.3 adds one)
and return the hash. The wallet call outcome is the `Except` argument. -/
def sign_and_send {E H : Type} (nonce : ℕ) (sign_result : Except E H) :
    ℕ × SignResponse E H :=
  match sign_result with
  | Except.error e => (nonce, SignResponse.errResp 400 e)
  | Except.ok tx => (nonce + 1, SignResponse.okResp tx)

/-! ### Receipt and block polling (transaction_manager/eth.py) -/

/-- A transaction receipt; only the optional `status` field is consulted
by `Eth.get_status`. -/
structure Receipt where
  status : Option ℤ
  deriving DecidableEq

/-- Embedding of `Eth.get_status` (eth.py lines 159-177): a missing
receipt either propagates `TransactionNotFound` (modelled as the `Except`
error) or yields -1; a present receipt yields `receipt.get(status, -1)`,
so a receipt without a status field is reported as -1. -/
def get_status (lookup : Option Receipt) (raise_err : Bool) : Except Unit ℤ :=
  match lookup with
  | Option.none => if raise_err then Except.error () else Except.ok (-1)
  | Option.some r => Except.ok (r.status.getD (-1))

/-- The polling loop of `Eth.wait_for_receipt`: at instant `t` with
`remaining` whole seconds of budget left, poll the chain; on
`TransactionNotFound` sleep one second and retry. Exhausting the budget
models `ReceiptTimeoutError`. -/
def wait_for_receipt_loop (receiptAt : ℕ → Option Receipt) : ℕ → ℕ → Except Unit ℤ
  | _, 0 => Except.error ()
  | t, r + 1 =>
    match get_status (receiptAt t) true with
    | Except.ok s => Except.ok s
    | Except.error _ => wait_for_receipt_loop receiptAt (t + 1) r

/-- Embedding of `Eth.wait_for_receipt` (eth.py lines 196-211): polls
from instant 0 with `max_time` seconds of budget; polls happen at the
instants strictly below `max_time`. -/
def wait_for_receipt (receiptAt : ℕ → Option Receipt) (max_time : ℕ) : Except Unit ℤ :=
  wait_for_receipt_loop receiptAt 0 max_time

/-- The loop of `Eth.wait_for_blocks` after the initial read of
`start_block`: while the block number has not advanced by `amount` and
the budget is not exhausted, sleep one second and poll again; when the
loop exits, raise `BlockTimeoutError` (the `Except` error) if the block
number still has not advanced enough. The poll of iteration `k` happens
after `k` sleeps, so the final poll occurs as the budget expires. -/
def wfb_go (blockAt : ℕ → ℤ) (start_block amount : ℤ) : ℕ → ℕ → Except Unit Unit
  | t, 0 => if blockAt t - start_block < amount then Except.error () else Except.ok ()
  | t, r + 1 =>
    if blockAt t - start_block < amount then wfb_go blockAt start_block amount (t + 1) r
    else Except.ok ()

/-- Embedding of `Eth.wait_for_blocks` (eth.py lines 179-194): reads the
current block number as `start_block`, then runs the fixed one-second
polling loop with `max_time` seconds of budget. -/
def wait_for_blocks (blockAt : ℕ → ℤ) (amount : ℤ) (max_time : ℕ) : Except Unit Unit :=
  wfb_go blockAt (blockAt 0) amount 0 max_time

/-! ### Concurrent sign-and-send requests (server.py)

A labelled transition system over `N` concurrent `/sign-and-send`
requests against the one managed account. The shared state is the
`threadLock` and the nonce counter (`NonceManager` is not under src/;
per spec section 4.3, reading the nonce does not mutate it and a commit
increments it by one). Each request acquires the lock, reads the
counter, and either commits (increment) or fails, releasing the lock —
exactly the `with threadLock:` block of `_sign_and_send`.
-/

/-- The phase of one in-flight `/sign-and-send` request. -/
inductive ReqPhase where
  | idle : ReqPhase
  | locked : ReqPhase
  | signing (v : ℕ) : ReqPhase
  | done (v : ℕ) : ReqPhase
  | failed (v : ℕ) : ReqPhase
  deriving DecidableEq

/-- Global state: who holds `threadLock`, the nonce counter, and the
phase of each of the `N` requests. -/
structure SysState (N : ℕ) where
  lock : Option (Fin N)
  nonce : ℕ
  req : Fin N → ReqPhase

/-- Initial state: lock free, counter at the on-chain transaction count
`n0`, every request idle. -/
def initState (N n0 : ℕ) : SysState N :=
  ⟨Option.none, n0, fun _ => ReqPhase.idle⟩

/-- One interleaving step of the system: acquire the free lock, read the
counter while holding the lock, or finish signing (successfully, which
commits the counter, or failing, which leaves it unchanged), releasing
the lock. -/
inductive Step {N : ℕ} : SysState N → SysState N → Prop where
  | acquire (s : SysState N) (i : Fin N) :
      s.lock = Option.none → s.req i = ReqPhase.idle →
      Step s ⟨Option.some i, s.nonce, Function.update s.req i ReqPhase.locked⟩
  | readNonce (s : SysState N) (i : Fin N) :
      s.lock = Option.some i → s.req i = ReqPhase.locked →
      Step s ⟨Option.some i, s.nonce, Function.update s.req i (ReqPhase.signing s.nonce)⟩
  | signOk (s : SysState N) (i : Fin N) (v : ℕ) :
      s.lock = Option.some i → s.req i = ReqPhase.signing v →
      Step s ⟨Option.none, s.nonce + 1, Function.update s.req i (ReqPhase.done v)⟩
  | signFail (s : SysState N) (i : Fin N) (v : ℕ) :
      s.lock = Option.some i → s.req i = ReqPhase.signing v →
      Step s ⟨Option.none, s.nonce, Function.update s.req i (ReqPhase.failed v)⟩

/-- States reachable from the initial state by interleaved request steps. -/
def Reachable (N n0 : ℕ) (s : SysState N) : Prop :=
  Relation.ReflTransGen Step (initState N n0) s

/-- The nonce a finished request committed (0 for unfinished phases;
only used under the assumption that the phase is `done`). -/
def doneValue : ReqPhase → ℕ
  | ReqPhase.done v => v
  | _ => 0

/-- Inductive invariant of the transition system. -/
structure Inv {N : ℕ} (n0 : ℕ) (s : SysState N) : Prop where
  le_nonce : n0 ≤ s.nonce
  done_iff : ∀ v, (∃ i, s.req i = ReqPhase.done v) ↔ (n0 ≤ v ∧ v < s.nonce)
  done_inj : ∀ i j v, s.req i = ReqPhase.done v → s.req j = ReqPhase.done v → i = j
  crit_lock : ∀ i, (s.req i = ReqPhase.locked ∨ ∃ v, s.req i = ReqPhase.signing v) →
    s.lock = Option.some i
  signing_nonce : ∀ i v, s.req i = ReqPhase.signing v → v = s.nonce

/-! Concrete two-request demonstration trace used by the witness. -/

/-- Demonstration trace, state 0: two idle requests, counter at 5. -/
def d0 : SysState 2 := initState 2 5

/-- Demonstration trace, state 1: request 0 acquired the lock. -/
def d1 : SysState 2 :=
  ⟨Option.some 0, d0.nonce, Function.update d0.req 0 ReqPhase.locked⟩

/-- Demonstration trace, state 2: request 0 read nonce 5. -/
def d2 : SysState 2 :=
  ⟨Option.some 0, d1.nonce, Function.update d1.req 0 (ReqPhase.signing d1.nonce)⟩

/-- Demonstration trace, state 3: request 0 committed nonce 5. -/
def d3 : SysState 2 :=
  ⟨Option.none, d2.nonce + 1, Function.update d2.req 0 (ReqPhase.done 5)⟩

/-- Demonstration trace, state 4: request 1 acquired the lock. -/
def d4 : SysState 2 :=
  ⟨Option.some 1, d3.nonce, Function.update d3.req 1 ReqPhase.locked⟩

/-- Demonstration trace, state 5: request 1 read nonce 6. -/
def d5 : SysState 2 :=
  ⟨Option.some 1, d4.nonce, Function.update d4.req 1 (ReqPhase.signing d4.nonce)⟩

/-- Demonstration trace, state 6: request 1 committed nonce 6. -/
def d6 : SysState 2 :=
  ⟨Option.none, d5.nonce + 1, Function.update d5.req 1 (ReqPhase.done 6)⟩

/-! ## Theorems -/

/-! ### Helper lemmas -/

theorem update_eq_iff {α β : Type _} [DecidableEq α] (f : α → β) (i j : α) (p q : β) :
    Function.update f i p j = q ↔ (j = i ∧ p = q) ∨ (j ≠ i ∧ f j = q) := by
  rcases eq_or_ne j i with h | h
  · subst h
    simp
  · simp [Function.update_noteq h, h]

theorem convert_tx_gas (tx : Tx) : (convert_tx tx).gas = tx.raw_tx.gas.map Option.some := by
  by_cases h : tx.raw_tx.maxPriorityFeePerGas.isSome || tx.raw_tx.maxFeePerGas.isSome <;>
    simp only [convert_tx, h] <;> simp

/-! ### C9: legacy gas price arithmetic -/

/-- C9: for every non-negative network gas price `g` and configured
increment percent `p`, `avg_gas_price` equals `g * (100 + p) // 100` with
integer floor-division semantics (the two inequalities characterise the
floor), is computed without floating point (the whole computation lives
in ℕ), and the result is a non-negative integer. -/
theorem avg_gas_price_spec (g p : ℕ) :
    avg_gas_price g p = g * (100 + p) / 100 ∧
    avg_gas_price g p * 100 ≤ g * (100 + p) ∧
    g * (100 + p) < (avg_gas_price g p + 1) * 100 ∧
    0 ≤ (avg_gas_price g p : ℤ) := by
  refine ⟨rfl, ?_, ?_, by positivity⟩ <;> simp only [avg_gas_price] <;> omega

/-- Witness for C9 at `g = 13`, `p = 10`: the price is 14 (floor of 14.3). -/
theorem avg_gas_price_spec_witness : avg_gas_price 13 10 = 14 := by
  have h := (avg_gas_price_spec 13 10).1
  rw [h]

/-! ### C2: nonce committed iff the wallet call succeeds -/

/-- C2: in the `/sign-and-send` handler the nonce counter is incremented
if and only if `wallet.sign_and_send` succeeds: an exception produces an
HTTP 400 error response and leaves the counter unchanged, success
increments the counter exactly once and returns the transaction hash. -/
theorem sign_and_send_commit_iff_success {E H : Type} (n : ℕ) (r : Except E H) :
    ((sign_and_send n r).1 = n + 1 ↔ ∃ h, r = Except.ok h) ∧
    ((sign_and_send n r).1 = n ↔ ∃ e, r = Except.error e) ∧
    (∀ e, r = Except.error e → sign_and_send n r = (n, SignResponse.errResp 400 e)) ∧
    (∀ h, r = Except.ok h → sign_and_send n r = (n + 1, SignResponse.okResp h)) := by
  cases r with
  | error e => refine ⟨?_, ?_, ?_, ?_⟩ <;> simp [sign_and_send]
  | ok h => refine ⟨?_, ?_, ?_, ?_⟩ <;> simp [sign_and_send]

/-- Witness for C2: a successful wallet call at counter 5 commits to 6
and returns the hash; a failing one leaves the counter at 5. -/
theorem sign_and_send_commit_iff_success_witness :
    sign_and_send 5 (Except.ok (7 : ℤ) : Except Unit ℤ) = (6, SignResponse.okResp 7) ∧
    sign_and_send 5 (Except.error () : Except Unit ℤ) = (5, SignResponse.errResp 400 ()) :=
  ⟨(sign_and_send_commit_iff_success 5 (Except.ok (7 : ℤ) : Except Unit ℤ)).2.2.2 7 rfl,
   (sign_and_send_commit_iff_success 5 (Except.error () : Except Unit ℤ)).2.2.1 () rfl⟩

/-! ### C5: pricing shape exclusivity of the converted transaction -/

/-- C5: the converted network transaction carries exactly one pricing
shape: a present (non-None) `maxFeePerGas` or `maxPriorityFeePerGas`
yields type 2 with the `gasPrice` key removed, otherwise type 1 with both
fee-market keys removed; never both shapes; and absent optional `gas`
and `data` are omitted rather than present with a None value. -/
theorem convert_tx_pricing_shape (tx : Tx) :
    ((tx.raw_tx.maxFeePerGas.isSome = true ∨ tx.raw_tx.maxPriorityFeePerGas.isSome = true) →
      (convert_tx tx).type = Option.some 2 ∧ (convert_tx tx).gasPrice = Option.none) ∧
    ((tx.raw_tx.maxFeePerGas = Option.none ∧ tx.raw_tx.maxPriorityFeePerGas = Option.none) →
      (convert_tx tx).type = Option.some 1 ∧ (convert_tx tx).maxFeePerGas = Option.none ∧
        (convert_tx tx).maxPriorityFeePerGas = Option.none) ∧
    (¬((convert_tx tx).gasPrice ≠ Option.none ∧
        ((convert_tx tx).maxFeePerGas ≠ Option.none ∨
          (convert_tx tx).maxPriorityFeePerGas ≠ Option.none))) ∧
    (convert_tx tx).gas ≠ Option.some Option.none ∧
    (convert_tx tx).data ≠ Option.some Option.none := by
  cases hp : tx.raw_tx.maxPriorityFeePerGas <;> cases hf : tx.raw_tx.maxFeePerGas <;>
    cases hg : tx.raw_tx.gas <;> cases hd : tx.raw_tx.data <;>
    simp [convert_tx, hp, hf, hg, hd]

/-- Witness for C5: a transaction with only `maxFeePerGas` set converts
to type 2 with no `gasPrice` key; one with neither fee-market field set
converts to type 1 with both fee-market keys removed. -/
theorem convert_tx_pricing_shape_witness :
    ((convert_tx ⟨⟨Option.none, Option.none, Option.none, Option.none, Option.none,
        Option.none, Option.none, Option.some 9, Option.some 7, Option.none⟩,
        Option.none⟩).type = Option.some 2 ∧
      (convert_tx ⟨⟨Option.none, Option.none, Option.none, Option.none, Option.none,
        Option.none, Option.none, Option.some 9, Option.some 7, Option.none⟩,
        Option.none⟩).gasPrice = Option.none) ∧
    ((convert_tx ⟨⟨Option.none, Option.none, Option.none, Option.none, Option.none,
        Option.none, Option.none, Option.some 9, Option.none, Option.none⟩,
        Option.none⟩).type = Option.some 1 ∧
      (convert_tx ⟨⟨Option.none, Option.none, Option.none, Option.none, Option.none,
        Option.none, Option.none, Option.some 9, Option.none, Option.none⟩,
        Option.none⟩).maxFeePerGas = Option.none ∧
      (convert_tx ⟨⟨Option.none, Option.none, Option.none, Option.none, Option.none,
        Option.none, Option.none, Option.some 9, Option.none, Option.none⟩,
        Option.none⟩).maxPriorityFeePerGas = Option.none) :=
  ⟨(convert_tx_pricing_shape _).1 (Or.inl rfl),
   (convert_tx_pricing_shape _).2.1 ⟨rfl, rfl⟩⟩

/-! ### C3: gas estimation with clamping at the block gas limit -/

/-- C3: with gas estimation enabled, `calculate_gas` returns
`int(estimate * multiplier)` clamped at the latest block gas limit: if
the multiplied estimate exceeds the limit the result is exactly the
block gas limit, and the clamped path always returns a value, never an
error. -/
theorem calculate_gas_estimation_cap (env : GasEnv) (tx : Tx) (est : ℕ)
    (hdis : env.DISABLE_GAS_ESTIMATION = false)
    (hest : env.estimate_gas (convert_tx tx) = Except.ok est) :
    calculate_gas env tx =
      Except.ok (min (pyInt ((est : ℚ) * eff_multiplier env.GAS_MULTIPLIER tx.multiplier))
        (env.block_gas_limit : ℤ)) ∧
    ((env.block_gas_limit : ℤ) <
        pyInt ((est : ℚ) * eff_multiplier env.GAS_MULTIPLIER tx.multiplier) →
      calculate_gas env tx = Except.ok (env.block_gas_limit : ℤ)) := by
  have hmain : calculate_gas env tx =
      Except.ok (min (pyInt ((est : ℚ) * eff_multiplier env.GAS_MULTIPLIER tx.multiplier))
        (env.block_gas_limit : ℤ)) := by
    simp only [calculate_gas, hdis, hest, Bool.false_eq_true, if_false]
    congr 1
    rw [min_def]
    split
    · rename_i hle
      rw [if_neg (by omega)]
    · rename_i hgt
      rw [if_pos (by omega)]
  refine ⟨hmain, fun hlt => ?_⟩
  rw [hmain, min_eq_right hlt.le]

/-- Witness for C3: estimate 100 with multiplier 2 against block gas
limit 150 is clamped to exactly 150. -/
theorem calculate_gas_estimation_cap_witness :
    calculate_gas ⟨false, 2, fun _ => Except.ok 100, 150⟩
      ⟨⟨Option.none, Option.none, Option.none, Option.none, Option.none,
        Option.none, Option.none, Option.none, Option.none, Option.none⟩,
        Option.none⟩ = Except.ok 150 := by
  have h := (calculate_gas_estimation_cap
    ⟨false, 2, fun _ => Except.ok 100, 150⟩
    ⟨⟨Option.none, Option.none, Option.none, Option.none, Option.none,
      Option.none, Option.none, Option.none, Option.none, Option.none⟩,
      Option.none⟩ 100 rfl rfl).2
  refine h ?_
  norm_num [pyInt, eff_multiplier]

/-! ### C10: disabled estimation requires an explicit gas value -/

/-- C10: with gas estimation disabled, `calculate_gas` on a transaction
whose `gas` field is None raises `KeyError` (because `convert_tx` pops
the absent key and the fallback indexes it); with an explicit gas value
the fallback is total and returns `int(gas * multiplier)`. -/
theorem calculate_gas_disabled_requires_gas (env : GasEnv) (tx : Tx)
    (hdis : env.DISABLE_GAS_ESTIMATION = true) :
    (tx.raw_tx.gas = Option.none → calculate_gas env tx = Except.error PyErr.keyError) ∧
    (∀ g, tx.raw_tx.gas = Option.some g →
      calculate_gas env tx =
        Except.ok (pyInt ((g : ℚ) * eff_multiplier env.GAS_MULTIPLIER tx.multiplier))) := by
  constructor
  · intro hg
    simp [calculate_gas, hdis, convert_tx_gas, hg]
  · intro g hg
    simp [calculate_gas, hdis, convert_tx_gas, hg]

/-- Witness for C10: with estimation disabled, a gas-less request yields
`KeyError` while an explicit gas of 21000 under multiplier 2 yields
42000. -/
theorem calculate_gas_disabled_requires_gas_witness :
    calculate_gas ⟨true, 2, fun _ => Except.ok 100, 150⟩
      ⟨⟨Option.none, Option.none, Option.none, Option.none, Option.none,
        Option.none, Option.none, Option.none, Option.none, Option.none⟩,
        Option.none⟩ = Except.error PyErr.keyError ∧
    calculate_gas ⟨true, 2, fun _ => Except.ok 100, 150⟩
      ⟨⟨Option.none, Option.none, Option.none, Option.none, Option.none,
        Option.some 21000, Option.none, Option.none, Option.none, Option.none⟩,
        Option.none⟩ = Except.ok 42000 := by
  constructor
  · exact (calculate_gas_disabled_requires_gas
      ⟨true, 2, fun _ => Except.ok 100, 150⟩
      ⟨⟨Option.none, Option.none, Option.none, Option.none, Option.none,
        Option.none, Option.none, Option.none, Option.none, Option.none⟩,
        Option.none⟩ rfl).1 rfl
  · have h := (calculate_gas_disabled_requires_gas
      ⟨true, 2, fun _ => Except.ok 100, 150⟩
      ⟨⟨Option.none, Option.none, Option.none, Option.none, Option.none,
        Option.some 21000, Option.none, Option.none, Option.none, Option.none⟩,
        Option.none⟩ rfl).2 21000 rfl
    rw [h]
    norm_num [pyInt, eff_multiplier]

/-! ### C4: an explicit request gas limit is used verbatim -/

/-- C4: the priced transaction's gas limit equals the request's explicit
gas limit verbatim (no multiplier, no estimation) whenever one is given;
only a request without a gas limit falls through to `calculate_gas`,
whose two fallback paths are the disabled-estimation multiplication and
the `estimateGas` call (settled by C10 and C3 respectively). -/
theorem price_gas_limit_spec (env : GasEnv) (tx : Tx) :
    (∀ g, tx.raw_tx.gas = Option.some g → price_gas_limit env tx = Except.ok g) ∧
    (tx.raw_tx.gas = Option.none → price_gas_limit env tx = calculate_gas env tx) := by
  constructor
  · intro g hg
    simp [price_gas_limit, hg]
  · intro hg
    simp [price_gas_limit, hg]

/-- Witness for C4: an explicit gas limit of 21000 is returned verbatim
even though the environment would multiply by 2 or estimate 100. -/
theorem price_gas_limit_spec_witness :
    price_gas_limit ⟨false, 2, fun _ => Except.ok 100, 150⟩
      ⟨⟨Option.none, Option.none, Option.none, Option.none, Option.none,
        Option.some 21000, Option.none, Option.none, Option.none, Option.none⟩,
        Option.none⟩ = Except.ok 21000 :=
  (price_gas_limit_spec ⟨false, 2, fun _ => Except.ok 100, 150⟩
    ⟨⟨Option.none, Option.none, Option.none, Option.none, Option.none,
      Option.some 21000, Option.none, Option.none, Option.none, Option.none⟩,
      Option.none⟩).1 21000 rfl

/-! ### C6: receipt polling -/

theorem wfr_loop_none (f : ℕ → Option Receipt) (t r : ℕ) (hf : f t = Option.none) :
    wait_for_receipt_loop f t (r + 1) = wait_for_receipt_loop f (t + 1) r := by
  simp only [wait_for_receipt_loop]
  rw [hf]
  rfl

theorem wfr_loop_some (f : ℕ → Option Receipt) (t r : ℕ) (rec : Receipt)
    (hf : f t = Option.some rec) :
    wait_for_receipt_loop f t (r + 1) = Except.ok (rec.status.getD (-1)) := by
  simp only [wait_for_receipt_loop]
  rw [hf]
  rfl

theorem wfr_loop_timeout_iff (f : ℕ → Option Receipt) :
    ∀ (r t : ℕ), wait_for_receipt_loop f t r = Except.error () ↔
      ∀ u, t ≤ u → u < t + r → f u = Option.none := by
  intro r
  induction r with
  | zero =>
    intro t
    constructor
    · intro _ u hu1 hu2
      omega
    · intro _
      rfl
  | succ r ih =>
    intro t
    cases hf : f t with
    | none =>
      rw [wfr_loop_none f t r hf, ih (t + 1)]
      constructor
      · intro h u hu1 hu2
        rcases Nat.eq_or_lt_of_le hu1 with h1 | h1
        · rw [← h1]
          exact hf
        · exact h u h1 (by omega)
      · intro h u hu1 hu2
        exact h u (by omega) (by omega)
    | some rec =>
      rw [wfr_loop_some f t r rec hf]
      constructor
      · intro h
        exact absurd h (by simp)
      · intro h
        exact absurd (h t le_rfl (by omega)) (by simp [hf])

theorem wfr_loop_found (f : ℕ → Option Receipt) :
    ∀ (r t u : ℕ) (rec : Receipt), t ≤ u → u < t + r → f u = Option.some rec →
      (∀ w, t ≤ w → w < u → f w = Option.none) →
      wait_for_receipt_loop f t r = Except.ok (rec.status.getD (-1)) := by
  intro r
  induction r with
  | zero =>
    intro t u rec h1 h2
    omega
  | succ r ih =>
    intro t u rec h1 h2 hfu hbefore
    rcases Nat.eq_or_lt_of_le h1 with heq | hlt
    · rw [← heq] at hfu
      exact wfr_loop_some f t r rec hfu
    · rw [wfr_loop_none f t r (hbefore t le_rfl hlt)]
      exact ih (t + 1) u rec (by omega) (by omega) hfu
        (fun w hw1 hw2 => hbefore w (by omega) hw2)

/-- C6: `wait_for_receipt` raises `ReceiptTimeoutError` if and only if no
receipt was available at any poll inside the wait budget; when a receipt
first becomes available at a poll inside the budget it returns that
receipt's status immediately; and a receipt whose status field is missing
ends the wait at once with the reported value -1, which is distinct
from the success status. Absence of a receipt is handled by polling again
(the caught `TransactionNotFound` branch of the loop), never surfaced as
an error. -/
theorem wait_for_receipt_spec (f : ℕ → Option Receipt) (max_time : ℕ) :
    (wait_for_receipt f max_time = Except.error () ↔
      ∀ t, t < max_time → f t = Option.none) ∧
    (∀ t rec, t < max_time → f t = Option.some rec →
      (∀ u, u < t → f u = Option.none) →
      wait_for_receipt f max_time = Except.ok (rec.status.getD (-1))) ∧
    (∀ t rec, t < max_time → f t = Option.some rec →
      (∀ u, u < t → f u = Option.none) → rec.status = Option.none →
      wait_for_receipt f max_time = Except.ok (-1) ∧
        wait_for_receipt f max_time ≠ Except.ok 1) := by
  refine ⟨?_, ?_, ?_⟩
  · constructor
    · intro h t ht
      exact (wfr_loop_timeout_iff f max_time 0).mp h t (by omega) (by omega)
    · intro h
      exact (wfr_loop_timeout_iff f max_time 0).mpr (fun u hu1 hu2 => h u (by omega))
  · intro t rec ht hf hb
    exact wfr_loop_found f max_time 0 t rec (by omega) (by omega) hf
      (fun w hw1 hw2 => hb w hw2)
  · intro t rec ht hf hb hs
    have h : wait_for_receipt f max_time = Except.ok (-1) := by
      have h0 := wfr_loop_found f max_time 0 t rec (by omega) (by omega) hf
        (fun w hw1 hw2 => hb w hw2)
      rw [hs] at h0
      exact h0
    refine ⟨h, ?_⟩
    rw [h]
    intro hcontra
    have := Except.ok.inj hcontra
    omega

/-- Witness for C6: a receipt with no status field appearing at instant 1
inside a 5-second budget makes the wait return -1 immediately. -/
theorem wait_for_receipt_spec_witness :
    wait_for_receipt (fun t => if t = 1 then Option.some ⟨Option.none⟩ else Option.none) 5 =
      Except.ok (-1) := by
  refine ((wait_for_receipt_spec
    (fun t => if t = 1 then Option.some ⟨Option.none⟩ else Option.none) 5).2.2
    1 ⟨Option.none⟩ (by omega) rfl ?_ rfl).1
  intro u hu
  have : u = 0 := by omega
  rw [this]
  rfl

/-! ### C7: block-advance polling -/

theorem wfb_go_ok_iff (f : ℕ → ℤ) (start amount : ℤ) :
    ∀ (r t : ℕ), wfb_go f start amount t r = Except.ok () ↔
      ∃ u, t ≤ u ∧ u ≤ t + r ∧ amount ≤ f u - start := by
  intro r
  induction r with
  | zero =>
    intro t
    simp only [wfb_go]
    split
    · rename_i hlt
      constructor
      · intro h
        exact absurd h (by simp)
      · rintro ⟨u, hu1, hu2, hu3⟩
        have : u = t := by omega
        rw [this] at hu3
        omega
    · rename_i hge
      constructor
      · intro _
        exact ⟨t, le_rfl, by omega, by omega⟩
      · intro _
        rfl
  | succ r ih =>
    intro t
    simp only [wfb_go]
    split
    · rename_i hlt
      rw [ih (t + 1)]
      constructor
      · rintro ⟨u, hu1, hu2, hu3⟩
        exact ⟨u, by omega, by omega, hu3⟩
      · rintro ⟨u, hu1, hu2, hu3⟩
        refine ⟨u, ?_, by omega, hu3⟩
        rcases Nat.eq_or_lt_of_le hu1 with h1 | h1
        · rw [← h1] at hu3
          omega
        · omega
    · rename_i hge
      constructor
      · intro _
        exact ⟨t, le_rfl, by omega, by omega⟩
      · intro _
        rfl

/-- C7: `wait_for_blocks` polls the block number at a fixed one-second
interval and returns normally exactly when the block number has advanced
by at least `amount` relative to its value at call time at some poll
within the wait budget; otherwise it raises `BlockTimeoutError`. The
model is a pure function of the observed chain, so no other state is
changed. -/
theorem wait_for_blocks_spec (f : ℕ → ℤ) (amount : ℤ) (max_time : ℕ) :
    (wait_for_blocks f amount max_time = Except.ok () ↔
      ∃ t, t ≤ max_time ∧ amount ≤ f t - f 0) ∧
    (wait_for_blocks f amount max_time = Except.error () ↔
      ∀ t, t ≤ max_time → f t - f 0 < amount) := by
  have hok := wfb_go_ok_iff f (f 0) amount max_time 0
  constructor
  · rw [wait_for_blocks, hok]
    constructor
    · rintro ⟨u, _, hu2, hu3⟩
      exact ⟨u, by omega, hu3⟩
    · rintro ⟨u, hu1, hu2⟩
      exact ⟨u, by omega, by omega, hu2⟩
  · constructor
    · intro herr t ht
      by_contra hcon
      have : wait_for_blocks f amount max_time = Except.ok () := by
        rw [wait_for_blocks, hok]
        exact ⟨t, by omega, by omega, by omega⟩
      rw [this] at herr
      exact absurd herr (by simp)
    · intro hall
      cases hres : wait_for_blocks f amount max_time with
      | error e => rfl
      | ok v =>
        exfalso
        cases v
        rw [wait_for_blocks, hok] at hres
        obtain ⟨u, _, hu2, hu3⟩ := hres
        exact absurd (hall u (by omega)) (by omega)

/-- Witness for C7: a chain advancing one block per second reaches three
new blocks inside a 5-second budget, so the wait returns normally. -/
theorem wait_for_blocks_spec_witness :
    wait_for_blocks (fun t => (t : ℤ)) 3 5 = Except.ok () :=
  (wait_for_blocks_spec (fun t => (t : ℤ)) 3 5).1.mpr ⟨3, by omega, by norm_num⟩

/-! ### C8: classification of provider submission errors -/

/-- C8 counterexample: a `ValueError` whose first argument is the plain
string boom satisfies neither True condition of the claim, yet
`is_nonce_too_low` does not return False — subscripting the string with
the message key raises `TypeError`. -/
theorem is_nonce_too_low_raises_on_str_arg :
    is_nonce_too_low (PyExc.valueError [PyVal.str ("boom")]) = Except.error PyErr.typeError ∧
    is_nonce_too_low (PyExc.valueError [PyVal.str ("boom")]) ≠ Except.ok false ∧
    is_nonce_too_low (PyExc.valueError [PyVal.str ("boom")]) ≠ Except.ok true := by
  refine ⟨rfl, ?_, ?_⟩ <;> intro h <;> simp [is_nonce_too_low] at h

theorem is_replacement_ok_true_iff (err : PyExc) :
    is_replacement_underpriced err = Except.ok true ↔
      ∃ args d, err = PyExc.valueError args ∧ args.head? = Option.some (PyVal.dict d) ∧
        List.lookup ("message") d =
          Option.some (PyVal.str ("replacement transaction underpriced")) := by
  cases err with
  | otherExc => simp [is_replacement_underpriced]
  | valueError args =>
    cases args with
    | nil => simp [is_replacement_underpriced]
    | cons a rest =>
      cases a with
      | dict d =>
        cases hm : List.lookup ("message") d with
        | none => simp [is_replacement_underpriced, hm]
        | some v => cases v <;> simp [is_replacement_underpriced, hm]
      | pyNone => simp [is_replacement_underpriced]
      | int n => simp [is_replacement_underpriced]
      | str s => simp [is_replacement_underpriced]

theorem is_replacement_ok_false_of_no_match (args : List PyVal) (a : PyVal)
    (hh : args.head? = Option.some a)
    (hnm : ∀ d, a = PyVal.dict d →
      List.lookup ("message") d ≠
        Option.some (PyVal.str ("replacement transaction underpriced"))) :
    is_replacement_underpriced (PyExc.valueError args) = Except.ok false := by
  cases args with
  | nil => simp at hh
  | cons b rest =>
    have hb : b = a := by
      simp at hh
      exact hh
    rw [hb]
    cases a with
    | dict d =>
      have hne := hnm d rfl
      cases hm : List.lookup ("message") d with
      | none => simp [is_replacement_underpriced, hm]
      | some v =>
        rw [hm] at hne
        cases v with
        | str s =>
          have hs : s ≠ "replacement transaction underpriced" := by
            intro hcon
            rw [hcon] at hne
            exact hne rfl
          simp [is_replacement_underpriced, hm, hs]
        | pyNone => simp [is_replacement_underpriced, hm]
        | int n => simp [is_replacement_underpriced, hm]
        | dict d2 => simp [is_replacement_underpriced, hm]
    | pyNone => rfl
    | int n => rfl
    | str s => rfl

theorem is_nonce_ok_true_iff (err : PyExc) :
    is_nonce_too_low err = Except.ok true ↔
      ∃ args d v, err = PyExc.valueError args ∧ args.head? = Option.some (PyVal.dict d) ∧
        List.lookup ("message") d = Option.some v ∧
        pyIn (PyVal.str ("nonce")) v = Except.ok true := by
  cases err with
  | otherExc => simp [is_nonce_too_low]
  | valueError args =>
    cases args with
    | nil => simp [is_nonce_too_low]
    | cons a rest =>
      cases a with
      | dict d =>
        cases hm : List.lookup ("message") d with
        | none => simp [is_nonce_too_low, hm]
        | some v => simp [is_nonce_too_low, hm]
      | pyNone => simp [is_nonce_too_low]
      | int n => simp [is_nonce_too_low]
      | str s => simp [is_nonce_too_low]

theorem is_nonce_typeerr_on_non_dict (args : List PyVal) (a : PyVal)
    (hh : args.head? = Option.some a) (hnd : ∀ d, a ≠ PyVal.dict d) :
    is_nonce_too_low (PyExc.valueError args) = Except.error PyErr.typeError := by
  cases args with
  | nil => simp at hh
  | cons b rest =>
    have hb : b = a := by
      simp at hh
      exact hh
    rw [hb]
    cases a with
    | dict d => exact absurd rfl (hnd d)
    | pyNone => rfl
    | int n => rfl
    | str s => rfl

/-- C8 (amended): non-ValueError exceptions make both predicates return
False. `is_replacement_underpriced` returns True iff the first argument
is a dict whose message equals the replacement-underpriced text, returns
False on any other first argument, and raises `IndexError` on an
argument-less ValueError. `is_nonce_too_low` returns True iff the first
argument is a dict whose message value contains nonce (substring for a
string value, key for a dict value), raises `TypeError` instead of
returning False when the first argument is present but not a dict,
`KeyError` when the dict lacks a message key, and `IndexError` on an
argument-less ValueError. -/
theorem classify_submission_error_amended (err : PyExc) :
    (err = PyExc.otherExc →
      is_replacement_underpriced err = Except.ok false ∧
        is_nonce_too_low err = Except.ok false) ∧
    (is_replacement_underpriced err = Except.ok true ↔
      ∃ args d, err = PyExc.valueError args ∧ args.head? = Option.some (PyVal.dict d) ∧
        List.lookup ("message") d =
          Option.some (PyVal.str ("replacement transaction underpriced"))) ∧
    (∀ args a, err = PyExc.valueError args → args.head? = Option.some a →
      (∀ d, a = PyVal.dict d →
        List.lookup ("message") d ≠
          Option.some (PyVal.str ("replacement transaction underpriced"))) →
      is_replacement_underpriced err = Except.ok false) ∧
    (is_nonce_too_low err = Except.ok true ↔
      ∃ args d v, err = PyExc.valueError args ∧ args.head? = Option.some (PyVal.dict d) ∧
        List.lookup ("message") d = Option.some v ∧
        pyIn (PyVal.str ("nonce")) v = Except.ok true) ∧
    (∀ args a, err = PyExc.valueError args → args.head? = Option.some a →
      (∀ d, a ≠ PyVal.dict d) → is_nonce_too_low err = Except.error PyErr.typeError) ∧
    (∀ args d, err = PyExc.valueError args → args.head? = Option.some (PyVal.dict d) →
      List.lookup ("message") d = Option.none →
      is_nonce_too_low err = Except.error PyErr.keyError) ∧
    (err = PyExc.valueError [] →
      is_replacement_underpriced err = Except.error PyErr.indexError ∧
        is_nonce_too_low err = Except.error PyErr.indexError) := by
  refine ⟨?_, is_replacement_ok_true_iff err, ?_, is_nonce_ok_true_iff err, ?_, ?_, ?_⟩
  · rintro rfl
    exact ⟨rfl, rfl⟩
  · rintro args a rfl hh hnm
    exact is_replacement_ok_false_of_no_match args a hh hnm
  · rintro args a rfl hh hnd
    exact is_nonce_typeerr_on_non_dict args a hh hnd
  · rintro args d rfl hh hm
    cases args with
    | nil => simp at hh
    | cons b rest =>
      have hb : b = PyVal.dict d := by
        simp at hh
        exact hh
      rw [hb]
      simp [is_nonce_too_low, hm]
  · rintro rfl
    exact ⟨rfl, rfl⟩

/-- Witness for the amended C8: a ValueError whose message is the dict
payload with a nonce-mentioning message is classified as nonce-too-low,
a ValueError whose present first argument is a plain string makes
`is_replacement_underpriced` return False, and a non-ValueError exception
makes both predicates return False. -/
theorem classify_submission_error_amended_witness :
    is_nonce_too_low
      (PyExc.valueError [PyVal.dict [(("message"), PyVal.str ("nonce too low"))]]) =
      Except.ok true ∧
    is_replacement_underpriced (PyExc.valueError [PyVal.str ("boom")]) = Except.ok false ∧
    is_replacement_underpriced PyExc.otherExc = Except.ok false :=
  ⟨(classify_submission_error_amended
      (PyExc.valueError [PyVal.dict [(("message"), PyVal.str ("nonce too low"))]])).2.2.2.1.mpr
    ⟨[PyVal.dict [(("message"), PyVal.str ("nonce too low"))]],
      [(("message"), PyVal.str ("nonce too low"))],
      PyVal.str ("nonce too low"), rfl, rfl, rfl, rfl⟩,
   (classify_submission_error_amended (PyExc.valueError [PyVal.str ("boom")])).2.2.1
    [PyVal.str ("boom")] (PyVal.str ("boom")) rfl rfl
    (fun d hd => absurd hd (by simp)),
   ((classify_submission_error_amended PyExc.otherExc).1 rfl).1⟩

/-! ### C1: nonce uniqueness under concurrent sign-and-send requests -/

theorem exists_done_update {N : ℕ} (req : Fin N → ReqPhase) (i : Fin N) (p : ReqPhase)
    (hp : ∀ w, p ≠ ReqPhase.done w) (hi : ∀ w, req i ≠ ReqPhase.done w) :
    ∀ v, (∃ j, Function.update req i p j = ReqPhase.done v) ↔ ∃ j, req j = ReqPhase.done v := by
  intro v
  constructor
  · rintro ⟨j, hj⟩
    rcases (update_eq_iff req i j p (ReqPhase.done v)).mp hj with ⟨hji, hpd⟩ | ⟨hne, hjd⟩
    · exact absurd hpd (hp v)
    · exact ⟨j, hjd⟩
  · rintro ⟨j, hj⟩
    refine ⟨j, (update_eq_iff req i j p (ReqPhase.done v)).mpr (Or.inr ⟨?_, hj⟩)⟩
    rintro rfl
    exact hi v hj

theorem done_inj_update {N : ℕ} (req : Fin N → ReqPhase) (i : Fin N) (p : ReqPhase)
    (hp : ∀ w, p ≠ ReqPhase.done w)
    (hinj : ∀ j k v, req j = ReqPhase.done v → req k = ReqPhase.done v → j = k) :
    ∀ j k v, Function.update req i p j = ReqPhase.done v →
      Function.update req i p k = ReqPhase.done v → j = k := by
  intro j k v hj hk
  rcases (update_eq_iff req i j p (ReqPhase.done v)).mp hj with ⟨_, hpd⟩ | ⟨_, hjd⟩
  · exact absurd hpd (hp v)
  rcases (update_eq_iff req i k p (ReqPhase.done v)).mp hk with ⟨_, hpd⟩ | ⟨_, hkd⟩
  · exact absurd hpd (hp v)
  exact hinj j k v hjd hkd

theorem inv_init (N n0 : ℕ) : Inv n0 (initState N n0) := by
  refine ⟨le_refl n0, ?_, ?_, ?_, ?_⟩
  · intro v
    constructor
    · rintro ⟨i, hi⟩
      exact absurd hi (by simp [initState])
    · rintro ⟨h1, h2⟩
      have hn : (initState N n0).nonce = n0 := rfl
      omega
  · intro i j v hi
    exact absurd hi (by simp [initState])
  · intro i hi
    rcases hi with h | ⟨v, h⟩ <;> exact absurd h (by simp [initState])
  · intro i v hi
    exact absurd hi (by simp [initState])

theorem inv_acquire {N n0 : ℕ} {s : SysState N} (hI : Inv n0 s) (i : Fin N)
    (hlock : s.lock = Option.none) (hidle : s.req i = ReqPhase.idle) :
    Inv n0 ⟨Option.some i, s.nonce, Function.update s.req i ReqPhase.locked⟩ := by
  refine ⟨hI.le_nonce, ?_, ?_, ?_, ?_⟩
  · intro v
    exact (exists_done_update s.req i ReqPhase.locked (by simp) (by simp [hidle]) v).trans
      (hI.done_iff v)
  · exact done_inj_update s.req i ReqPhase.locked (by simp) hI.done_inj
  · intro j hj
    show Option.some i = Option.some j
    rcases hj with hl | ⟨v, hv⟩
    · rcases (update_eq_iff s.req i j ReqPhase.locked ReqPhase.locked).mp hl with
        ⟨hji, _⟩ | ⟨hne, hjl⟩
      · rw [hji]
      · have := hI.crit_lock j (Or.inl hjl)
        rw [hlock] at this
        exact absurd this (by simp)
    · rcases (update_eq_iff s.req i j ReqPhase.locked (ReqPhase.signing v)).mp hv with
        ⟨hji, hls⟩ | ⟨hne, hjs⟩
      · exact absurd hls (by simp)
      · have := hI.crit_lock j (Or.inr ⟨v, hjs⟩)
        rw [hlock] at this
        exact absurd this (by simp)
  · intro j v hjv
    rcases (update_eq_iff s.req i j ReqPhase.locked (ReqPhase.signing v)).mp hjv with
      ⟨hji, hls⟩ | ⟨hne, hjs⟩
    · exact absurd hls (by simp)
    · have := hI.crit_lock j (Or.inr ⟨v, hjs⟩)
      rw [hlock] at this
      exact absurd this (by simp)

theorem inv_readNonce {N n0 : ℕ} {s : SysState N} (hI : Inv n0 s) (i : Fin N)
    (hlock : s.lock = Option.some i) (hl : s.req i = ReqPhase.locked) :
    Inv n0 ⟨Option.some i, s.nonce, Function.update s.req i (ReqPhase.signing s.nonce)⟩ := by
  refine ⟨hI.le_nonce, ?_, ?_, ?_, ?_⟩
  · intro v
    exact (exists_done_update s.req i (ReqPhase.signing s.nonce) (by simp)
      (by simp [hl]) v).trans (hI.done_iff v)
  · exact done_inj_update s.req i (ReqPhase.signing s.nonce) (by simp) hI.done_inj
  · intro j hj
    show Option.some i = Option.some j
    rcases hj with hlk | ⟨v, hv⟩
    · rcases (update_eq_iff s.req i j (ReqPhase.signing s.nonce) ReqPhase.locked).mp hlk with
        ⟨hji, hcon⟩ | ⟨hne, hjl⟩
      · exact absurd hcon (by simp)
      · have := hI.crit_lock j (Or.inl hjl)
        rw [hlock] at this
        exact this
    · rcases (update_eq_iff s.req i j (ReqPhase.signing s.nonce) (ReqPhase.signing v)).mp hv with
        ⟨hji, _⟩ | ⟨hne, hjs⟩
      · rw [hji]
      · have := hI.crit_lock j (Or.inr ⟨v, hjs⟩)
        rw [hlock] at this
        exact this
  · intro j v hjv
    show v = s.nonce
    rcases (update_eq_iff s.req i j (ReqPhase.signing s.nonce) (ReqPhase.signing v)).mp hjv with
      ⟨hji, heq⟩ | ⟨hne, hjs⟩
    · exact (ReqPhase.signing.inj heq).symm
    · have := hI.crit_lock j (Or.inr ⟨v, hjs⟩)
      rw [hlock] at this
      exact absurd (Option.some.inj this).symm hne

theorem inv_signOk {N n0 : ℕ} {s : SysState N} (hI : Inv n0 s) (i : Fin N) (v : ℕ)
    (hlock : s.lock = Option.some i) (hsig : s.req i = ReqPhase.signing v) :
    Inv n0 ⟨Option.none, s.nonce + 1, Function.update s.req i (ReqPhase.done v)⟩ := by
  have hv : v = s.nonce := hI.signing_nonce i v hsig
  have hle := hI.le_nonce
  refine ⟨Nat.le_succ_of_le hI.le_nonce, ?_, ?_, ?_, ?_⟩
  · intro w
    show (∃ j, Function.update s.req i (ReqPhase.done v) j = ReqPhase.done w) ↔
      n0 ≤ w ∧ w < s.nonce + 1
    constructor
    · rintro ⟨j, hj⟩
      rcases (update_eq_iff s.req i j (ReqPhase.done v) (ReqPhase.done w)).mp hj with
        ⟨hji, hdw⟩ | ⟨hne, hjd⟩
      · have hvw : v = w := ReqPhase.done.inj hdw
        omega
      · have := (hI.done_iff w).mp ⟨j, hjd⟩
        omega
    · rintro ⟨hw1, hw2⟩
      by_cases hw : w = s.nonce
      · exact ⟨i, (update_eq_iff s.req i i (ReqPhase.done v) (ReqPhase.done w)).mpr
          (Or.inl ⟨rfl, by rw [hv, hw]⟩)⟩
      · have hwlt : w < s.nonce := by omega
        obtain ⟨j, hj⟩ := (hI.done_iff w).mpr ⟨hw1, hwlt⟩
        refine ⟨j, (update_eq_iff s.req i j (ReqPhase.done v) (ReqPhase.done w)).mpr
          (Or.inr ⟨?_, hj⟩)⟩
        rintro rfl
        rw [hsig] at hj
        exact absurd hj (by simp)
  · intro j k w hj hk
    rcases (update_eq_iff s.req i j (ReqPhase.done v) (ReqPhase.done w)).mp hj with
      ⟨hji, hdw⟩ | ⟨hjne, hjd⟩
    · rcases (update_eq_iff s.req i k (ReqPhase.done v) (ReqPhase.done w)).mp hk with
        ⟨hki, _⟩ | ⟨hkne, hkd⟩
      · rw [hji, hki]
      · exfalso
        have h1 := (hI.done_iff w).mp ⟨k, hkd⟩
        have h2 : v = w := ReqPhase.done.inj hdw
        omega
    · rcases (update_eq_iff s.req i k (ReqPhase.done v) (ReqPhase.done w)).mp hk with
        ⟨hki, hdw⟩ | ⟨hkne, hkd⟩
      · exfalso
        have h1 := (hI.done_iff w).mp ⟨j, hjd⟩
        have h2 : v = w := ReqPhase.done.inj hdw
        omega
      · exact hI.done_inj j k w hjd hkd
  · intro j hj
    exfalso
    rcases hj with hlk | ⟨w, hw⟩
    · rcases (update_eq_iff s.req i j (ReqPhase.done v) ReqPhase.locked).mp hlk with
        ⟨_, hcon⟩ | ⟨hne, hjl⟩
      · exact absurd hcon (by simp)
      · have := hI.crit_lock j (Or.inl hjl)
        rw [hlock] at this
        exact absurd (Option.some.inj this).symm hne
    · rcases (update_eq_iff s.req i j (ReqPhase.done v) (ReqPhase.signing w)).mp hw with
        ⟨_, hcon⟩ | ⟨hne, hjs⟩
      · exact absurd hcon (by simp)
      · have := hI.crit_lock j (Or.inr ⟨w, hjs⟩)
        rw [hlock] at this
        exact absurd (Option.some.inj this).symm hne
  · intro j w hjw
    exfalso
    rcases (update_eq_iff s.req i j (ReqPhase.done v) (ReqPhase.signing w)).mp hjw with
      ⟨_, hcon⟩ | ⟨hne, hjs⟩
    · exact absurd hcon (by simp)
    · have := hI.crit_lock j (Or.inr ⟨w, hjs⟩)
      rw [hlock] at this
      exact absurd (Option.some.inj this).symm hne

theorem inv_signFail {N n0 : ℕ} {s : SysState N} (hI : Inv n0 s) (i : Fin N) (v : ℕ)
    (hlock : s.lock = Option.some i) (hsig : s.req i = ReqPhase.signing v) :
    Inv n0 ⟨Option.none, s.nonce, Function.update s.req i (ReqPhase.failed v)⟩ := by
  refine ⟨hI.le_nonce, ?_, ?_, ?_, ?_⟩
  · intro w
    exact (exists_done_update s.req i (ReqPhase.failed v) (by simp) (by simp [hsig]) w).trans
      (hI.done_iff w)
  · exact done_inj_update s.req i (ReqPhase.failed v) (by simp) hI.done_inj
  · intro j hj
    exfalso
    rcases hj with hlk | ⟨w, hw⟩
    · rcases (update_eq_iff s.req i j (ReqPhase.failed v) ReqPhase.locked).mp hlk with
        ⟨_, hcon⟩ | ⟨hne, hjl⟩
      · exact absurd hcon (by simp)
      · have := hI.crit_lock j (Or.inl hjl)
        rw [hlock] at this
        exact absurd (Option.some.inj this).symm hne
    · rcases (update_eq_iff s.req i j (ReqPhase.failed v) (ReqPhase.signing w)).mp hw with
        ⟨_, hcon⟩ | ⟨hne, hjs⟩
      · exact absurd hcon (by simp)
      · have := hI.crit_lock j (Or.inr ⟨w, hjs⟩)
        rw [hlock] at this
        exact absurd (Option.some.inj this).symm hne
  · intro j w hjw
    exfalso
    rcases (update_eq_iff s.req i j (ReqPhase.failed v) (ReqPhase.signing w)).mp hjw with
      ⟨_, hcon⟩ | ⟨hne, hjs⟩
    · exact absurd hcon (by simp)
    · have := hI.crit_lock j (Or.inr ⟨w, hjs⟩)
      rw [hlock] at this
      exact absurd (Option.some.inj this).symm hne

theorem inv_step {N n0 : ℕ} {s t : SysState N} (hI : Inv n0 s) (hs : Step s t) :
    Inv n0 t := by
  cases hs with
  | acquire i hlock hidle => exact inv_acquire hI i hlock hidle
  | readNonce i hlock hl => exact inv_readNonce hI i hlock hl
  | signOk i v hlock hsig => exact inv_signOk hI i v hlock hsig
  | signFail i v hlock hsig => exact inv_signFail hI i v hlock hsig

theorem reachable_inv {N n0 : ℕ} {s : SysState N} (h : Reachable N n0 s) : Inv n0 s := by
  unfold Reachable at h
  induction h with
  | refl => exact inv_init N n0
  | tail _ hstep ih => exact inv_step ih hstep

/-- C1: in every reachable interleaving of `N` concurrent sign-and-send
requests against the one managed account, at most one request is inside
the lock-protected read-nonce/sign/submit/commit section at a time (so
no two requests observe the same live nonce value), and whenever all `N`
requests have succeeded the set of committed nonces is exactly the gap-
and duplicate-free range from the initial on-chain count `n0` up to
`n0 + N - 1`. -/
theorem submit_nonce_uniqueness {N n0 : ℕ} {s : SysState N} (h : Reachable N n0 s) :
    (∀ i j : Fin N,
      (s.req i = ReqPhase.locked ∨ ∃ v, s.req i = ReqPhase.signing v) →
      (s.req j = ReqPhase.locked ∨ ∃ v, s.req j = ReqPhase.signing v) → i = j) ∧
    ((∀ i, ∃ v, s.req i = ReqPhase.done v) →
      ∀ v, (∃ i, s.req i = ReqPhase.done v) ↔ (n0 ≤ v ∧ v < n0 + N)) := by
  have hInv := reachable_inv h
  constructor
  · intro i j hi hj
    have h1 := hInv.crit_lock i hi
    have h2 := hInv.crit_lock j hj
    rw [h1] at h2
    exact Option.some.inj h2
  · intro hall
    have hN : s.nonce = n0 + N := by
      have hinj : Function.Injective (fun i => doneValue (s.req i)) := by
        intro i j hij
        obtain ⟨vi, hvi⟩ := hall i
        obtain ⟨vj, hvj⟩ := hall j
        simp only [hvi, hvj, doneValue] at hij
        exact hInv.done_inj i j vj (by rw [hvi, hij]) hvj
      have him : Finset.image (fun i => doneValue (s.req i)) Finset.univ =
          Finset.Ico n0 s.nonce := by
        ext w
        simp only [Finset.mem_image, Finset.mem_univ, true_and, Finset.mem_Ico]
        constructor
        · rintro ⟨i, hi⟩
          obtain ⟨vi, hvi⟩ := hall i
          rw [hvi] at hi
          simp only [doneValue] at hi
          rw [← hi]
          exact (hInv.done_iff vi).mp ⟨i, hvi⟩
        · intro hw
          obtain ⟨i, hi⟩ := (hInv.done_iff w).mpr hw
          refine ⟨i, ?_⟩
          rw [hi]
          simp only [doneValue]
      have h1 : (Finset.image (fun i => doneValue (s.req i)) Finset.univ).card = N := by
        rw [Finset.card_image_of_injective _ hinj, Finset.card_univ, Fintype.card_fin]
      rw [him, Nat.card_Ico] at h1
      have := hInv.le_nonce
      omega
    intro v
    rw [hInv.done_iff v, hN]

/-- Witness for C1: along the concrete two-request trace starting at
on-chain count 5, both requests succeed and the committed nonces are
exactly 5 and 6, with 7 never committed. -/
theorem submit_nonce_uniqueness_witness :
    (∃ i : Fin 2, d6.req i = ReqPhase.done 5) ∧
    (∃ i : Fin 2, d6.req i = ReqPhase.done 6) ∧
    ¬(∃ i : Fin 2, d6.req i = ReqPhase.done 7) := by
  have h01 : Step d0 d1 := Step.acquire d0 0 rfl rfl
  have h12 : Step d1 d2 := Step.readNonce d1 0 rfl rfl
  have h23 : Step d2 d3 := Step.signOk d2 0 5 rfl rfl
  have h34 : Step d3 d4 := Step.acquire d3 1 rfl rfl
  have h45 : Step d4 d5 := Step.readNonce d4 1 rfl rfl
  have h56 : Step d5 d6 := Step.signOk d5 1 6 rfl rfl
  have hreach : Reachable 2 5 d6 :=
    Relation.ReflTransGen.tail (Relation.ReflTransGen.tail (Relation.ReflTransGen.tail
      (Relation.ReflTransGen.tail (Relation.ReflTransGen.tail
        (Relation.ReflTransGen.tail Relation.ReflTransGen.refl h01) h12) h23) h34) h45) h56
  have hall : ∀ i : Fin 2, ∃ v, d6.req i = ReqPhase.done v := by
    intro i
    fin_cases i
    · exact ⟨5, by decide⟩
    · exact ⟨6, by decide⟩
  refine ⟨?_, ?_, ?_⟩
  · exact ((submit_nonce_uniqueness hreach).2 hall 5).mpr (by omega)
  · exact ((submit_nonce_uniqueness hreach).2 hall 6).mpr (by omega)
  · intro hcon
    have := ((submit_nonce_uniqueness hreach).2 hall 7).mp hcon
    omega

end TxManager
